import Mathlib

/-!
Verification of the kart/sno dataset diff & merge engine.

This file gives a shallow embedding, in Lean, of the parts of the
repository needed to settle the specification's claims:

* `DatasetStructure.diff`   (src/sno/structure.py, lines 507-624)
* `DatasetStructure.write_index` (src/sno/structure.py, lines 626-701)
* the diff pruning / accumulation layer used by `get_dataset_diff` and
  `get_repo_diff` (src/kart/diff.py; the `DatasetDiff`/`RepoDiff`
  containers live in `kart/diff_structs.py`, which is not part of the
  sources, so they are modelled from the spec), and
* the merge resolution layer (`kart/merge_util.py` is not part of the
  sources; modelled from the spec and the behaviour pinned down by
  src/tests/test_resolve.py).

Python dicts that are only ever used as insertion-ordered maps are
embedded as association lists (`List (String × α)`) together with the
map operations the source uses (`alookup`, `dictSet`, `bucketAppend`,
`eraseKey`).
-/

set_option autoImplicit false

namespace Kart

/-- A feature (one record of a dataset), as the Python code sees it after
`get_feature`: a dict from column name to value.  Values are rendered as
strings; the diff/merge code never interprets them, it only compares
them. -/
abbrev Feature := List (String × String)

/-- First-match association-list lookup: the semantics of `d[k]` /
`k in d` for the Python dicts embedded as association lists.  (All dicts
we build keep their keys distinct, so first-match equals dict lookup.) -/
def alookup {κ α : Type} [DecidableEq κ] : List (κ × α) → κ → Option α
  | [], _ => none
  | (k, v) :: rest, key => if k = key then some v else alookup rest key

/-- `d[k] = v` on an insertion-ordered dict: replace in place if the key
exists, else append at the end. -/
def dictSet {κ α : Type} [DecidableEq κ] : List (κ × α) → κ → α → List (κ × α)
  | [], key, v => [(key, v)]
  | (k, w) :: rest, key, v =>
      if k = key then (k, v) :: rest else (k, w) :: dictSet rest key v

/-- `d[k].append(v)` on a `defaultdict(list)`: append to the bucket if the
key exists, else create a singleton bucket at the end. -/
def bucketAppend {κ α : Type} [DecidableEq κ] : List (κ × List α) → κ → α → List (κ × List α)
  | [], key, v => [(key, [v])]
  | (k, vs) :: rest, key, v =>
      if k = key then (k, vs ++ [v]) :: rest else (k, vs) :: bucketAppend rest key v

/-- `del d[k]` on an insertion-ordered dict. -/
def eraseKey {κ α : Type} [DecidableEq κ] : List (κ × α) → κ → List (κ × α)
  | [], _ => []
  | (k, v) :: rest, key => if k = key then rest else (k, v) :: eraseKey rest key

/-- `dict(pairs)`: build a dict from a list of pairs, later pairs
overwriting earlier ones (used for `dict(itertools.chain(...))`). -/
def listToDict {κ α : Type} [DecidableEq κ] (l : List (κ × α)) : List (κ × α) :=
  l.foldl (fun acc kv => dictSet acc kv.1 kv.2) []

/-! ### Tree-level deltas (the input `DatasetStructure.diff` consumes)

`diff` iterates over `diff_index.deltas` produced by pygit2's
`Tree.diff_to_tree`.  Each delta has a status and an old/new file path.
The only path test the source performs is
`path.startswith(".sno-table/meta/")`, so a path is embedded as either a
meta path (one starting with that prefix) or a record path carrying the
encoded primary-key part. -/

/-- A path inside a dataset tree.  `TreePath.meta s` stands for a path
starting with `".sno-table/meta/"`; `TreePath.record s` for any other path,
where `s` is what `decode_path_to_1pk` recovers from it (as a string). -/
inductive TreePath where
  | meta : String → TreePath
  | record : String → TreePath
deriving DecidableEq, Repr

/-- `path.startswith(".sno-table/meta/")`. -/
def TreePath.isMeta : TreePath → Bool
  | .meta _ => true
  | .record _ => false

/-- The pygit2 delta statuses dispatched on by `DatasetStructure.diff`. -/
inductive DeltaStatus where
  | added | deleted | modified
  | renamed | copied | ignored | typechange | unmodified | unreadable | untracked
deriving DecidableEq, Repr

/-- One entry of `diff_index.deltas`: a status plus old/new file paths
(pygit2 always populates both `old_file` and `new_file`). -/
structure TreeDelta where
  status : DeltaStatus
  old_path : TreePath
  new_path : TreePath
deriving DecidableEq, Repr

/-- What `diff` needs from the `old` resp. `new` snapshot object:
`decode_path_to_1pk` (composed with `str`, since every candidate key the
source builds is `str(pk)`) and `get_feature`. -/
structure SnapView where
  decode : TreePath → String
  feat : String → Feature

/-- The candidate state mutated by the main loop of
`DatasetStructure.diff`: `candidates_ins` (`defaultdict(list)`),
`candidates_upd` (plain dict) and `candidates_del` (`defaultdict(list)`,
each entry carrying `(str(old_pk), old_feature)`). -/
structure DiffCands where
  ins : List (String × List Feature)
  upd : List (String × (Feature × Feature))
  del : List (String × List (String × Feature))
deriving DecidableEq, Repr

/-- The `Diff` object constructed at the end of `DatasetStructure.diff`.
`meta` is always passed as `{}` there. -/
structure Diff where
  meta : List (String × String)
  inserts : List Feature
  deletes : List (String × Feature)
  updates : List (String × (Feature × Feature))
deriving DecidableEq, Repr

/-- The body of `for d in diff_index.deltas` in `DatasetStructure.diff`
(src/sno/structure.py lines 545-601): skip deltas under the meta
namespace, then dispatch on the delta status, staging candidates; any
other status raises `NotImplementedError`. -/
def processDelta (old new : SnapView) (pkFilter : String → Bool)
    (st : DiffCands) (d : TreeDelta) : Except String DiffCands :=
  if d.old_path.isMeta then .ok st
  else if d.new_path.isMeta then .ok st
  else
    match d.status with
    | .deleted =>
        let old_pk := old.decode d.old_path
        if ¬ pkFilter old_pk then .ok st
        else .ok { st with del := bucketAppend st.del old_pk (old_pk, old.feat old_pk) }
    | .modified =>
        let old_pk := old.decode d.old_path
        let new_pk := new.decode d.new_path
        if ¬ pkFilter old_pk ∧ ¬ pkFilter new_pk then .ok st
        else .ok { st with upd := dictSet st.upd old_pk (old.feat old_pk, new.feat new_pk) }
    | .added =>
        let new_pk := new.decode d.new_path
        if ¬ pkFilter new_pk then .ok st
        else .ok { st with ins := bucketAppend st.ins new_pk (new.feat new_pk) }
    | _ => .error "NotImplementedError: Delta status"

/-- The main loop of `DatasetStructure.diff` over all deltas; a raise
aborts the whole diff. -/
def processDeltas (old new : SnapView) (pkFilter : String → Bool) :
    DiffCands → List TreeDelta → Except String DiffCands
  | st, [] => .ok st
  | st, d :: ds =>
      match processDelta old new pkFilter st d with
      | .error e => .error e
      | .ok st' => processDeltas old new pkFilter st' ds

/-- One iteration of the `# detect renames` loop
(src/sno/structure.py lines 604-614): if the bucket key `h` (a
`str(pk)`) is present in both `candidates_del` and `candidates_ins`, pop
the first staged deletion and the first staged insertion and re-emit
them as an update keyed by the deleted item's pk. -/
def renameStep (st : DiffCands) (h : String) : DiffCands :=
  match alookup st.del h, alookup st.ins h with
  | some delBucket, some insBucket =>
      match delBucket, insBucket with
      | (track_pk, myObj) :: delRest, otherObj :: insRest =>
          { del := if delRest = [] then eraseKey st.del h else dictSet st.del h delRest
            ins := if insRest = [] then eraseKey st.ins h else dictSet st.ins h insRest
            upd := dictSet st.upd track_pk (myObj, otherObj) }
      | _, _ => st
  | _, _ => st

/-- The rename-detection pass: iterate over a snapshot of
`candidates_del`'s keys (`for h in list(candidates_del.keys())`). -/
def detectRenames (st : DiffCands) : DiffCands :=
  (st.del.map Prod.fst).foldl renameStep st

/-- `DatasetStructure.diff` (src/sno/structure.py lines 507-624),
specialised to `reverse=False` (so `old = self`, `new = other`), taking
the tree-level delta list as input the way the source takes
`diff_index.deltas` from pygit2.  Returns the constructed `Diff`
(`inserts` is `chain(*candidates_ins.values())`, `deletes` is
`dict(chain(*candidates_del.values()))`, `updates` is
`candidates_upd`). -/
def snoDiffDeltas (old new : SnapView) (pkFilter : String → Bool)
    (deltas : List TreeDelta) : Except String Diff :=
  match processDeltas old new pkFilter ⟨[], [], []⟩ deltas with
  | .error e => .error e
  | .ok st =>
      let st2 := detectRenames st
      .ok { meta := []
            inserts := (st2.ins.map Prod.snd).flatten
            deletes := listToDict (st2.del.map Prod.snd).flatten
            updates := st2.upd }

/-! ### Snapshots and the tree-diff collaborator

A dataset snapshot is a finite map from primary key (as a string) to
feature.  The path codec is deterministic and injective per dataset, so
record paths are `TreePath.record pk`. -/

/-- A dataset snapshot: primary key (string form) to feature.  Snapshot
well-formedness (`Snapshot.wf`) is the source invariant that the
primary-key space is injective. -/
structure Snapshot where
  features : List (String × Feature)
deriving DecidableEq, Repr

/-- The snapshot invariant: distinct primary keys. -/
def Snapshot.wf (s : Snapshot) : Prop := (s.features.map Prod.fst).Nodup

/-- The view of a snapshot that `DatasetStructure.diff` uses:
`decode_path_to_1pk` recovers the pk from a record path, and
`get_feature` looks the feature up by pk. -/
def Snapshot.view (s : Snapshot) : SnapView :=
  { decode := fun p => match p with | .meta m => m | .record k => k
    feat := fun pk => (alookup s.features pk).getD [] }

/-- Modelled from the spec: the external tree-diff collaborator
(`Tree.diff_to_tree` / `diffTreePaths(oldTree, newTree)` of §6), which is
not part of the sources.  For each record path it reports `deleted` if
the path exists only in the old tree, `added` if only in the new tree,
and `modified` if it exists in both with different content; unchanged
paths produce no delta.  Deletions/modifications are enumerated over the
old tree, then additions over the new tree. -/
def treeDeltas (a b : Snapshot) : List TreeDelta :=
  (a.features.filterMap (fun kv =>
    match alookup b.features kv.1 with
    | none => some ⟨.deleted, .record kv.1, .record kv.1⟩
    | some fb => if kv.2 = fb then none else some ⟨.modified, .record kv.1, .record kv.1⟩))
  ++ (b.features.filterMap (fun kv =>
    if (alookup a.features kv.1).isSome then none
    else some ⟨.added, .record kv.1, .record kv.1⟩))

/-- `DatasetStructure.diff` between two snapshots of one dataset
(`reverse=False`): feed the collaborator-computed tree deltas through
the source's delta loop, rename detection and `Diff` construction. -/
def datasetDiff (a b : Snapshot) (pkFilter : String → Bool) : Except String Diff :=
  snoDiffDeltas a.view b.view pkFilter (treeDeltas a b)

/-- The `UNFILTERED` pk filter: matches every key. -/
def unfiltered : String → Bool := fun _ => true

/-! ### `DatasetStructure.write_index` (src/sno/structure.py lines 626-701)

The git index is embedded as a map from blob path to blob data; the
paths written by `write_index` all come from `encode_1pk_to_path` /
`encode_feature`, so they are kept as plain strings here.  `click.echo`
output (one line per conflicting delta) is collected in a message list,
and the raised exceptions become the error side of an `Except`, carrying
the (partially updated, since the Python index is mutated in place)
index. -/

/-- The git index: blob path → blob data. -/
abbrev GitIndex := List (String × String)

/-- `path in index`. -/
def idxContains (idx : GitIndex) (p : String) : Bool := (alookup idx p).isSome

/-- `index.remove(path)`. -/
def idxRemove (idx : GitIndex) (p : String) : GitIndex := eraseKey idx p

/-- `index.add(IndexEntry(path, blob, ...))`: replaces any entry at the
same path. -/
def idxAdd (idx : GitIndex) (p data : String) : GitIndex := dictSet idx p data

/-- `d.pop(k)` on a feature dict (the source only pops keys that are
present: the dataset's geometry column). -/
def dictPop (f : Feature) (k : String) : Feature := f.filter (fun kv => kv.1 ≠ k)

/-- Python `==` on two feature dicts: extensional equality of key-value
mappings. -/
def featureEq (f g : Feature) : Bool :=
  (f.map Prod.fst ++ g.map Prod.fst).all (fun k => alookup f k == alookup g k)

/-- What `write_index` uses from the dataset object: `self.primary_key`,
`self.encode_1pk_to_path`, `self.encode_feature` (returning
`(feature_path, feature_data)`), `self.geom_column_name` and
`self.get_feature` (reading the feature actually stored in the
dataset's own tree). -/
structure WriteDataset where
  primary_key : String
  encode_1pk_to_path : String → String
  encode_feature : Feature → String × String
  geom_column_name : Option String
  get_feature : String → Feature

/-- The `dataset_diff` dict passed to `write_index`: its `"META"`,
`"D"`, `"I"` and `"U"` parts. -/
structure DatasetDiffIn where
  metaPart : List (String × String)
  dels : List (String × Feature)
  inss : List Feature
  upds : List (String × (Feature × Feature))
deriving DecidableEq, Repr

/-- `old_feature[pk_field]` (always present on well-formed features). -/
def pkOf (ds : WriteDataset) (f : Feature) : String :=
  (alookup f ds.primary_key).getD ""

/-- One iteration of the deletes loop of `write_index` (lines 641-648):
a nonexistent path is a conflict (reported, skipped), otherwise the
entry is removed from the index. -/
def deleteStep (ds : WriteDataset) (acc : List String × GitIndex)
    (item : String × Feature) : List String × GitIndex :=
  let pk := pkOf ds item.2
  let feature_path := ds.encode_1pk_to_path pk
  if ¬ idxContains acc.2 feature_path then
    (acc.1 ++ ["Trying to delete nonexistent feature: " ++ pk], acc.2)
  else
    (acc.1, idxRemove acc.2 feature_path)

/-- One iteration of the inserts loop of `write_index` (lines 650-661):
an already-present path is a conflict, otherwise the encoded feature is
added. -/
def insertStep (ds : WriteDataset) (acc : List String × GitIndex)
    (new_feature : Feature) : List String × GitIndex :=
  let pk := pkOf ds new_feature
  let fp := ds.encode_feature new_feature
  if idxContains acc.2 fp.1 then
    (acc.1 ++ ["Trying to create feature that already exists: " ++ pk], acc.2)
  else
    (acc.1, idxAdd acc.2 fp.1 fp.2)

/-- One iteration of the updates loop of `write_index` (lines 664-696):
a missing old path is a conflict; then the actually stored feature is
compared with the expected old value, with the geometry column (when the
dataset has one) popped from both sides first; a mismatch is a conflict;
otherwise the old entry is replaced by the encoded new feature. -/
def updateStep (ds : WriteDataset) (acc : List String × GitIndex)
    (item : String × (Feature × Feature)) : List String × GitIndex :=
  let old_feature := item.2.1
  let new_feature := item.2.2
  let old_pk := pkOf ds old_feature
  let old_feature_path := ds.encode_1pk_to_path old_pk
  if ¬ idxContains acc.2 old_feature_path then
    (acc.1 ++ ["Trying to update nonexistent feature: " ++ old_pk], acc.2)
  else
    let actual_existing_feature := ds.get_feature old_pk
    let cmp :=
      match ds.geom_column_name with
      | some g => (dictPop actual_existing_feature g, dictPop old_feature g)
      | none => (actual_existing_feature, old_feature)
    if ¬ featureEq cmp.1 cmp.2 then
      (acc.1 ++ ["Trying to update already-changed feature: " ++ old_pk], acc.2)
    else
      let idx1 := idxRemove acc.2 old_feature_path
      let np := ds.encode_feature new_feature
      (acc.1, idxAdd idx1 np.1 np.2)

/-- The three loops of `write_index`, run in source order (deletes, then
inserts, then updates), threading the index and accumulating one
`click.echo` message per conflicting delta. -/
def writeIndexLoops (ds : WriteDataset) (df : DatasetDiffIn) (index : GitIndex) :
    List String × GitIndex :=
  let a1 := df.dels.foldl (deleteStep ds) ([], index)
  let a2 := df.inss.foldl (insertStep ds) a1
  df.upds.foldl (updateStep ds) a2

/-- The exceptions `write_index` can raise. -/
inductive WriteError where
  | notYetImplemented : WriteError
  | patchDoesNotApply : List String → WriteError
deriving DecidableEq, Repr

/-- `DatasetStructure.write_index` (src/sno/structure.py lines 626-701):
a non-empty `"META"` part raises `NotYetImplemented` before any delta is
processed; otherwise all three loops run to completion and a single
`PatchDoesNotApply` failure is raised at the end iff any conflict was
recorded.  The error carries the index as mutated so far (the Python
index argument is updated in place). -/
def write_index (ds : WriteDataset) (df : DatasetDiffIn) (index : GitIndex) :
    Except (WriteError × GitIndex) GitIndex :=
  if df.metaPart ≠ [] then .error (.notYetImplemented, index)
  else if (writeIndexLoops ds df index).1 ≠ [] then
    .error (.patchDoesNotApply (writeIndexLoops ds df index).1, (writeIndexLoops ds df index).2)
  else .ok (writeIndexLoops ds df index).2

/-! ### The diff accumulator containers and `prune`

`get_dataset_diff` and `get_repo_diff` live in src/kart/diff.py; the
`DatasetDiff`/`RepoDiff` containers they use come from
`kart/diff_structs.py`, which is not among the sources, so the
containers and their `+=`/`prune` operations are modelled from the
spec (§3, §4.3). -/

/-- One delta of the accumulator layer, keyed by its logical identity. -/
inductive DeltaE where
  | ins : String → String → DeltaE
  | del : String → String → DeltaE
  | upd : String → String → String → DeltaE
deriving DecidableEq, Repr

/-- The identity a delta is keyed by. -/
def DeltaE.key : DeltaE → String
  | .ins k _ => k
  | .del k _ => k
  | .upd k _ _ => k

/-- Modelled from the spec: a `DatasetDiff` (kart/diff_structs.py, not in
the sources) is a mapping from change-kind (`"meta"`, `"feature"`) to an
ordered collection of deltas. -/
abbrev DatasetDiffS := List (String × List DeltaE)

/-- Modelled from the spec: a `RepoDiff` maps dataset path to
`DatasetDiff`. -/
abbrev RepoDiffS := List (String × DatasetDiffS)

/-- Modelled from the spec: `DatasetDiff.prune()` removes empty nested
containers bottom-up — here, kinds whose delta collection is empty. -/
def ddPrune (dd : DatasetDiffS) : DatasetDiffS :=
  dd.filter (fun kv => !kv.2.isEmpty)

/-- Modelled from the spec: `RepoDiff.prune()` prunes every nested
`DatasetDiff`, then drops datasets whose diff became empty. -/
def rdPrune (rd : RepoDiffS) : RepoDiffS :=
  (rd.map (fun kv => (kv.1, ddPrune kv.2))).filter (fun kv => !kv.2.isEmpty)

/-- All deltas of a `DatasetDiff`. -/
def ddDeltas (dd : DatasetDiffS) : List DeltaE := (dd.map Prod.snd).flatten

/-- All deltas of a `RepoDiff`. -/
def rdDeltas (rd : RepoDiffS) : List DeltaE := (rd.map (fun kv => ddDeltas kv.2)).flatten

/-- No kind of a `DatasetDiff` maps to an empty delta collection. -/
def ddNoEmpty (dd : DatasetDiffS) : Prop := ∀ kv ∈ dd, kv.2 ≠ []

/-- No dataset entry of a `RepoDiff` is empty or contains an empty kind. -/
def rdNoEmpty (rd : RepoDiffS) : Prop := ∀ kv ∈ rd, kv.2 ≠ [] ∧ ddNoEmpty kv.2

/-- Modelled from the spec: merging one delta list into another with
`+=` — for colliding identities the later diff wins outright (§4.3). -/
def deltasMerge (xs ys : List DeltaE) : List DeltaE :=
  xs.filter (fun d => ¬ ys.any (fun e => e.key = d.key)) ++ ys

/-- Modelled from the spec: `DatasetDiff.__iadd__` — merge the other
diff's kinds into this one, later diff winning per identity. -/
def ddMerge (a b : DatasetDiffS) : DatasetDiffS :=
  b.foldl (fun acc kv =>
    match alookup acc kv.1 with
    | some xs => dictSet acc kv.1 (deltasMerge xs kv.2)
    | none => acc ++ [kv]) a

/-- `get_dataset_diff` (src/kart/diff.py lines 32-63), with the two
collaborator-produced pairwise diffs as inputs: `diff_cc` is the
commit↔commit diff (absent when `base_rs == target_rs`), `diff_wc` the
commit↔working-copy diff (absent when no working copy is given).  The
accumulated diff is pruned before being returned. -/
def get_dataset_diff (diff_cc diff_wc : Option DatasetDiffS) : DatasetDiffS :=
  let d0 : DatasetDiffS := []
  let d1 := match diff_cc with | some d => ddMerge d0 d | none => d0
  let d2 := match diff_wc with | some d => ddMerge d1 d | none => d1
  ddPrune d2

/-- `get_repo_diff` (src/kart/diff.py lines 66-83), with the per-dataset
collaborator diffs as inputs: build a `RepoDiff` from every dataset's
`get_dataset_diff`, then prune it. -/
def get_repo_diff (dsDiffs : List (String × (Option DatasetDiffS × Option DatasetDiffS))) :
    RepoDiffS :=
  rdPrune (dsDiffs.map (fun kv => (kv.1, get_dataset_diff kv.2.1 kv.2.2)))

/-! ### The merge resolution layer

`kart/merge_util.py` (`MergedIndex`, `resolve`, merge finalization) is
not among the sources; it is modelled from the spec (§3, §4.4) and the
behaviour pinned down by src/tests/test_resolve.py. -/

/-- A conflict key: the dataset path, whether the conflicted item is a
meta item or a feature, and the item's identity
(e.g. `"nz_waca_adjustments:meta:schema.json"`). -/
structure ConflictKey where
  dataset : String
  isMetaItem : Bool
  item : String
deriving DecidableEq, Repr

/-- One version of an item: its identity and value. -/
structure Version where
  pk : String
  value : Feature
deriving DecidableEq, Repr

/-- Modelled from the spec: a conflict holds up to three named versions;
`ancestor = none` is an add/add conflict, missing ours/theirs means that
side deleted the item (§3). -/
structure Conflict where
  ancestor : Option Version
  ours : Option Version
  theirs : Option Version
deriving DecidableEq, Repr

/-- Modelled from the spec: `MergedIndex` owns the working set of
entries destined for the merged tree, the conflicts, and the
user-supplied resolutions (§3). -/
structure MergedIndex where
  entries : List (String × Feature)
  conflicts : List (ConflictKey × Conflict)
  resolves : List (ConflictKey × List Version)
deriving DecidableEq, Repr

/-- The errors the resolution layer reports: `InvalidOperation` for the
meta-gating rule, and an unknown conflict key. -/
inductive ResolveError where
  | invalidOperation : ResolveError
  | conflictNotFound : ResolveError
deriving DecidableEq, Repr

/-- The dataset still has at least one meta-item conflict without a
resolve entry. -/
def hasUnresolvedMetaConflict (mi : MergedIndex) (dsPath : String) : Bool :=
  mi.conflicts.any (fun kc =>
    kc.1.dataset == dsPath && kc.1.isMetaItem && (alookup mi.resolves kc.1).isNone)

/-- Modelled from the spec: `resolve(conflict_key, versions)` — the key
must name a conflict; a feature conflict cannot be resolved while its
dataset still has unresolved meta-item conflicts (the attempt fails with
`InvalidOperation`); otherwise the resolution is recorded in `resolves`
without touching `entries` (§4.4, src/tests/test_resolve.py lines
296-308). -/
def resolveConflict (mi : MergedIndex) (key : ConflictKey) (versions : List Version) :
    Except ResolveError MergedIndex :=
  if (alookup mi.conflicts key).isNone then .error .conflictNotFound
  else if ¬ key.isMetaItem ∧ hasUnresolvedMetaConflict mi key.dataset then
    .error .invalidOperation
  else .ok { mi with resolves := dictSet mi.resolves key versions }

/-- Modelled from the spec: finalization — if any conflict lacks a
resolution, fail with the number remaining; otherwise the output tree is
the working set plus every resolved version written at its own identity
(§4.4). -/
def finalizeMerge (mi : MergedIndex) : Except Nat (List (String × Feature)) :=
  let unresolved := mi.conflicts.filter (fun kc => (alookup mi.resolves kc.1).isNone)
  if unresolved.length ≠ 0 then .error unresolved.length
  else .ok (mi.entries ++ ((mi.resolves.map Prod.snd).flatten.map (fun v => (v.pk, v.value))))

/-! ### Closed forms for the snapshot-level diff

Used to characterise `datasetDiff` on well-formed snapshots: the deletes
are the old-only features, the inserts the new-only features, the
updates the common features whose value changed, each restricted by the
pk filter. -/

/-- Features of `a` whose key is absent from `b` and passes the filter. -/
def delClosed (a b : Snapshot) (f : String → Bool) : List (String × Feature) :=
  a.features.filter (fun kv => (alookup b.features kv.1).isNone && f kv.1)

/-- Features of `b` whose key is absent from `a` and passes the filter. -/
def insClosed (a b : Snapshot) (f : String → Bool) : List Feature :=
  (b.features.filter (fun kv => (alookup a.features kv.1).isNone && f kv.1)).map Prod.snd

/-- Keys present in both snapshots with changed values, passing the
filter, paired with their old and new values. -/
def updClosed (a b : Snapshot) (f : String → Bool) : List (String × (Feature × Feature)) :=
  (a.features.filter (fun kv =>
    match alookup b.features kv.1 with
    | some fb => decide (kv.2 ≠ fb) && f kv.1
    | none => false)).map
    (fun kv => (kv.1, (kv.2, (alookup b.features kv.1).getD [])))

/-! ## Helper lemmas about the dict operations -/

section DictLemmas

variable {κ α : Type} [DecidableEq κ]

theorem alookup_eq_none {l : List (κ × α)} {k : κ} :
    alookup l k = none ↔ k ∉ l.map Prod.fst := by
  induction l with
  | nil => simp [alookup]
  | cons kv rest ih =>
      obtain ⟨k', v⟩ := kv
      by_cases h : k' = k
      · subst h
        simp [alookup]
      · have h2 : ¬ k = k' := fun he => h he.symm
        simp [alookup, h, ih, h2]

theorem alookup_some_mem {l : List (κ × α)} {k : κ} {v : α}
    (h : alookup l k = some v) : (k, v) ∈ l := by
  induction l with
  | nil => simp [alookup] at h
  | cons kv rest ih =>
      obtain ⟨k', w⟩ := kv
      by_cases hk : k' = k
      · subst hk
        simp [alookup] at h
        simp [h]
      · simp [alookup, hk] at h
        exact List.mem_cons_of_mem _ (ih h)

theorem mem_alookup {l : List (κ × α)} {k : κ} {v : α}
    (hn : (l.map Prod.fst).Nodup) (h : (k, v) ∈ l) : alookup l k = some v := by
  induction l with
  | nil => simp at h
  | cons kv rest ih =>
      obtain ⟨k', w⟩ := kv
      simp only [List.map_cons, List.nodup_cons] at hn
      rcases List.mem_cons.mp h with h1 | h1
      · cases h1
        simp [alookup]
      · have hk : ¬ k' = k := by
          intro he
          subst he
          exact hn.1 (List.mem_map_of_mem Prod.fst h1)
        simp only [alookup, if_neg hk]
        exact ih hn.2 h1

theorem alookup_append {l1 l2 : List (κ × α)} {k : κ} :
    alookup (l1 ++ l2) k =
      match alookup l1 k with
      | some v => some v
      | none => alookup l2 k := by
  induction l1 with
  | nil => simp [alookup]
  | cons kv rest ih =>
      obtain ⟨k', v⟩ := kv
      by_cases h : k' = k <;> simp [alookup, h, ih]

theorem dictSet_fresh {l : List (κ × α)} {k : κ} {v : α}
    (h : alookup l k = none) : dictSet l k v = l ++ [(k, v)] := by
  induction l with
  | nil => simp [dictSet]
  | cons kv rest ih =>
      obtain ⟨k', w⟩ := kv
      by_cases hk : k' = k
      · simp [alookup, hk] at h
      · simp [alookup, hk] at h
        simp [dictSet, hk, ih h]

theorem bucketAppend_fresh {l : List (κ × List α)} {k : κ} {v : α}
    (h : alookup l k = none) : bucketAppend l k v = l ++ [(k, [v])] := by
  induction l with
  | nil => simp [bucketAppend]
  | cons kv rest ih =>
      obtain ⟨k', w⟩ := kv
      by_cases hk : k' = k
      · simp [alookup, hk] at h
      · simp [alookup, hk] at h
        simp [bucketAppend, hk, ih h]

theorem alookup_dictSet_self {l : List (κ × α)} {k : κ} {v : α} :
    alookup (dictSet l k v) k = some v := by
  induction l with
  | nil => simp [dictSet, alookup]
  | cons kv rest ih =>
      obtain ⟨k', w⟩ := kv
      by_cases hk : k' = k <;> simp [dictSet, alookup, hk, ih]

theorem alookup_dictSet_ne {l : List (κ × α)} {k k' : κ} {v : α}
    (h : k' ≠ k) : alookup (dictSet l k v) k' = alookup l k' := by
  have h2 : ¬ k = k' := fun he => h he.symm
  induction l with
  | nil => simp [dictSet, alookup, h2]
  | cons kv rest ih =>
      obtain ⟨k'', w⟩ := kv
      by_cases hk : k'' = k
      · subst hk
        simp [dictSet, alookup, h2]
      · simp [dictSet, alookup, hk, ih]

theorem listToDict_aux_nodup {l acc : List (κ × α)}
    (hd : ∀ kv ∈ l, alookup acc kv.1 = none)
    (hn : (l.map Prod.fst).Nodup) :
    l.foldl (fun acc kv => dictSet acc kv.1 kv.2) acc = acc ++ l := by
  induction l generalizing acc with
  | nil => simp
  | cons kv rest ih =>
      simp only [List.map_cons, List.nodup_cons] at hn
      simp only [List.foldl_cons]
      rw [dictSet_fresh (hd kv (List.mem_cons_self _ _))]
      rw [ih]
      · simp
      · intro kv' h'
        rw [alookup_append]
        rw [hd kv' (List.mem_cons_of_mem _ h')]
        have hne : ¬ kv.1 = kv'.1 := by
          intro he
          exact hn.1 (he ▸ List.mem_map_of_mem Prod.fst h')
        simp [alookup, hne]
      · exact hn.2

theorem listToDict_nodup {l : List (κ × α)} (hn : (l.map Prod.fst).Nodup) :
    listToDict l = l := by
  have h0 : ∀ kv ∈ l, alookup ([] : List (κ × α)) kv.1 = none := fun kv _ => rfl
  have := listToDict_aux_nodup h0 hn
  simpa [listToDict] using this

end DictLemmas

/-! ## Lemmas about the delta loop -/

/-- A delta with an old or new path under the meta namespace is skipped
by the delta loop without touching the candidate state. -/
theorem processDelta_meta_skip (old new : SnapView) (f : String → Bool)
    (st : DiffCands) (d : TreeDelta)
    (h : d.old_path.isMeta = true ∨ d.new_path.isMeta = true) :
    processDelta old new f st d = .ok st := by
  rcases h with h | h
  · simp [processDelta, h]
  · by_cases h1 : d.old_path.isMeta <;> simp [processDelta, h, h1]

/-- C10: for every dataset diff whose meta part is non-empty,
`write_index` raises `NotYetImplemented` before applying any feature
delta, leaving the given index unchanged. -/
theorem writeIndex_meta_raises (ds : WriteDataset) (df : DatasetDiffIn) (index : GitIndex)
    (h : df.metaPart ≠ []) :
    write_index ds df index = .error (.notYetImplemented, index) := by
  simp [write_index, h]

/-- Witness for `writeIndex_meta_raises`: a diff carrying one meta
change and no feature deltas fails with `NotYetImplemented` and the
index it was given. -/
theorem writeIndex_meta_raises_witness :
    (DatasetDiffIn.mk [("title", "t")] [] [] []).metaPart ≠ [] ∧
    write_index ⟨"id", fun pk => pk, fun _ => ("p", "d"), none, fun _ => []⟩
      ⟨[("title", "t")], [], [], []⟩ [("p", "blob")]
      = .error (.notYetImplemented, [("p", "blob")]) :=
  ⟨by simp, writeIndex_meta_raises _ _ _ (by simp)⟩

/-- C9: when the dataset has a geometry column, the update conflict
check of `write_index` compares the actually stored feature with the
expected old value after popping the geometry column from both, so an
update whose stored feature differs from the expected old value only in
the geometry column is applied (old entry removed, new feature added)
without being counted as a conflict. -/
theorem writeIndex_update_ignores_geometry (ds : WriteDataset) (g : String)
    (old_f new_f : Feature) (k : String) (index : GitIndex)
    (hg : ds.geom_column_name = some g)
    (hin : idxContains index (ds.encode_1pk_to_path (pkOf ds old_f)) = true)
    (heq : featureEq (dictPop (ds.get_feature (pkOf ds old_f)) g) (dictPop old_f g) = true) :
    write_index ds ⟨[], [], [], [(k, (old_f, new_f))]⟩ index =
      .ok (idxAdd (idxRemove index (ds.encode_1pk_to_path (pkOf ds old_f)))
        (ds.encode_feature new_f).1 (ds.encode_feature new_f).2) := by
  simp [write_index, writeIndexLoops, updateStep, hg, hin, heq]

/-- Witness for `writeIndex_update_ignores_geometry`: the stored feature
and the expected old value differ only in the `geom` column, and the
update goes through cleanly. -/
theorem writeIndex_update_ignores_geometry_witness :
    (let ds : WriteDataset :=
      ⟨"id", fun pk => "T/" ++ pk, fun _ => ("T/new", "data"), some "geom",
        fun _ => [("id", "5"), ("geom", "STORED"), ("x", "1")]⟩
     let old_f : Feature := [("id", "5"), ("geom", "EXPECTED"), ("x", "1")]
     idxContains [("T/5", "blob")] (ds.encode_1pk_to_path (pkOf ds old_f)) = true ∧
     featureEq (dictPop (ds.get_feature (pkOf ds old_f)) "geom") (dictPop old_f "geom") = true ∧
     write_index ds ⟨[], [], [], [("5", (old_f, [("id", "5"), ("geom", "G2"), ("x", "2")]))]⟩
       [("T/5", "blob")] = .ok [("T/new", "data")]) := by
  refine ⟨rfl, rfl, ?_⟩
  have h := writeIndex_update_ignores_geometry
    ⟨"id", fun pk => "T/" ++ pk, fun _ => ("T/new", "data"), some "geom",
      fun _ => [("id", "5"), ("geom", "STORED"), ("x", "1")]⟩
    "geom" [("id", "5"), ("geom", "EXPECTED"), ("x", "1")]
    [("id", "5"), ("geom", "G2"), ("x", "2")] "5" [("T/5", "blob")] rfl rfl rfl
  simpa using h

/-- C6: a changed path whose old path or new path lies under the
dataset's meta namespace contributes nothing to the feature diff:
removing such a delta from the input leaves the result of
`DatasetStructure.diff` unchanged, for every surrounding delta list,
snapshot view and filter. -/
theorem diff_excludes_meta_paths (old new : SnapView) (f : String → Bool)
    (l1 l2 : List TreeDelta) (d : TreeDelta)
    (h : d.old_path.isMeta = true ∨ d.new_path.isMeta = true) :
    snoDiffDeltas old new f (l1 ++ d :: l2) = snoDiffDeltas old new f (l1 ++ l2) := by
  have key : ∀ st, processDeltas old new f st (l1 ++ d :: l2) =
      processDeltas old new f st (l1 ++ l2) := by
    induction l1 with
    | nil =>
        intro st
        simp [processDeltas, processDelta_meta_skip old new f st d h]
    | cons d' rest ih =>
        intro st
        simp only [List.cons_append, processDeltas]
        cases processDelta old new f st d' with
        | error e => rfl
        | ok st' => exact ih st'
  simp [snoDiffDeltas, key]

/-- Witness for `diff_excludes_meta_paths`: a modified meta path
produces the same (empty) diff as no delta at all. -/
theorem diff_excludes_meta_paths_witness :
    (TreePath.meta "schema.json").isMeta = true ∧
    snoDiffDeltas ⟨fun _ => "", fun _ => []⟩ ⟨fun _ => "", fun _ => []⟩ unfiltered
        ([] ++ ⟨.modified, .meta "schema.json", .meta "schema.json"⟩ :: []) =
      snoDiffDeltas ⟨fun _ => "", fun _ => []⟩ ⟨fun _ => "", fun _ => []⟩ unfiltered ([] ++ []) :=
  ⟨rfl, diff_excludes_meta_paths _ _ _ [] [] _ (Or.inl rfl)⟩

/-- C7 counterexample: the meta-namespace check runs before the change
type dispatch, so a delta with an unsupported change type (here a
type-change) whose path lies under the meta namespace is silently
skipped — `DatasetStructure.diff` returns an empty diff instead of
raising. -/
theorem diff_unsupported_meta_counterexample :
    snoDiffDeltas ⟨fun _ => "", fun _ => []⟩ ⟨fun _ => "", fun _ => []⟩ unfiltered
      [⟨.typechange, .meta "crs/EPSG-4167.wkt", .meta "crs/EPSG-4167.wkt"⟩]
      = .ok ⟨[], [], [], []⟩ := rfl

/-- C7 (amended): for every delta whose change type is not
added/deleted/modified and whose paths are not under the meta namespace,
`DatasetStructure.diff` raises `NotImplementedError` and aborts, no
matter what other deltas surround it. -/
theorem diff_unsupported_status_fails (old new : SnapView) (f : String → Bool)
    (l1 l2 : List TreeDelta) (d : TreeDelta)
    (h1 : d.old_path.isMeta = false) (h2 : d.new_path.isMeta = false)
    (h3 : d.status ≠ .added) (h4 : d.status ≠ .deleted) (h5 : d.status ≠ .modified) :
    ∃ e, snoDiffDeltas old new f (l1 ++ d :: l2) = .error e := by
  have hd : ∀ st, processDelta old new f st d = .error "NotImplementedError: Delta status" := by
    intro st
    cases hs : d.status <;> simp_all [processDelta]
  have key : ∀ st, ∃ e, processDeltas old new f st (l1 ++ d :: l2) = .error e := by
    induction l1 with
    | nil =>
        intro st
        exact ⟨"NotImplementedError: Delta status", by simp [processDeltas, hd st]⟩
    | cons d' rest ih =>
        intro st
        simp only [List.cons_append, processDeltas]
        cases processDelta old new f st d' with
        | error e => exact ⟨e, rfl⟩
        | ok st' => exact ih st'
  obtain ⟨e, he⟩ := key ⟨[], [], []⟩
  exact ⟨e, by simp [snoDiffDeltas, he]⟩

/-- Witness for `diff_unsupported_status_fails`: a copied record-path
delta makes the whole diff fail. -/
theorem diff_unsupported_status_fails_witness :
    (TreePath.record "49/3e/Bg==").isMeta = false ∧
    ∃ e, snoDiffDeltas ⟨fun _ => "", fun _ => []⟩ ⟨fun _ => "", fun _ => []⟩ unfiltered
      ([] ++ ⟨.copied, .record "49/3e/Bg==", .record "aa/bb/Cg=="⟩ :: []) = .error e :=
  ⟨rfl, diff_unsupported_status_fails _ _ _ [] [] _ rfl rfl
    (by simp) (by simp) (by simp)⟩

/-- C1 counterexample: old snapshot maps pk 1 to content C, new snapshot
maps pk 2 to the same content C, no other changes — the diff is a Delete
of pk 1 plus an Insert of pk 2 with empty updates, not a single Update:
deletion/insertion candidates are bucketed by the pk string, so the two
land in different buckets and are never paired. -/
theorem diff_move_pairing_counterexample :
    datasetDiff ⟨[("1", [("x", "c")])]⟩ ⟨[("2", [("x", "c")])]⟩ unfiltered
      = .ok ⟨[], [[("x", "c")]], [("1", [("x", "c")])], []⟩ := rfl

/-- C1 (amended): deletion and insertion candidates are bucketed by the
primary-key string (the identity), not by a content fingerprint; a
staged deletion and a staged insertion whose decoded pks coincide are
paired FIFO into a single Update keyed by the deleted item's pk. -/
theorem diff_same_pk_delete_insert_pairs (old new : SnapView) (f : String → Bool)
    (p q : TreePath)
    (hp : p.isMeta = false) (hq : q.isMeta = false)
    (hk : new.decode q = old.decode p) (hf : f (old.decode p) = true) :
    snoDiffDeltas old new f [⟨.deleted, p, p⟩, ⟨.added, q, q⟩] =
      .ok ⟨[], [], [],
        [(old.decode p, (old.feat (old.decode p), new.feat (old.decode p)))]⟩ := by
  simp [snoDiffDeltas, processDeltas, processDelta, hp, hq, hk, hf,
    detectRenames, renameStep, bucketAppend, alookup, eraseKey, dictSet, listToDict]

/-! ## Prune (C8) -/

/-- C8: pruning is idempotent on both diff containers, never removes a
delta (the delta sequence is unchanged by pruning), and after pruning no
nested entry is empty; in particular the diffs returned by
`get_dataset_diff` and `get_repo_diff`, which end in a prune, contain no
empty containers. -/
theorem prune_idempotent_no_empty :
    (∀ dd : DatasetDiffS, ddPrune (ddPrune dd) = ddPrune dd) ∧
    (∀ rd : RepoDiffS, rdPrune (rdPrune rd) = rdPrune rd) ∧
    (∀ dd : DatasetDiffS, ddDeltas (ddPrune dd) = ddDeltas dd) ∧
    (∀ rd : RepoDiffS, rdDeltas (rdPrune rd) = rdDeltas rd) ∧
    (∀ dd : DatasetDiffS, ddNoEmpty (ddPrune dd)) ∧
    (∀ rd : RepoDiffS, rdNoEmpty (rdPrune rd)) ∧
    (∀ cc wc, ddNoEmpty (get_dataset_diff cc wc)) ∧
    (∀ l, rdNoEmpty (get_repo_diff l)) := by
  have dd_idem : ∀ dd : DatasetDiffS, ddPrune (ddPrune dd) = ddPrune dd := by
    intro dd
    simp [ddPrune, List.filter_filter]
  have dd_deltas : ∀ dd : DatasetDiffS, ddDeltas (ddPrune dd) = ddDeltas dd := by
    intro dd
    induction dd with
    | nil => rfl
    | cons kv rest ih =>
        by_cases h : kv.2.isEmpty
        · have h2 : kv.2 = [] := List.isEmpty_iff.mp h
          simp [ddPrune, ddDeltas, h, h2] at ih ⊢
          simpa [ddPrune, ddDeltas] using ih
        · simp [ddPrune, ddDeltas, h] at ih ⊢
          simpa [ddPrune, ddDeltas] using ih
  have dd_ne : ∀ dd : DatasetDiffS, ddNoEmpty (ddPrune dd) := by
    intro dd kv hkv
    have := List.of_mem_filter hkv
    simpa [List.isEmpty_iff] using this
  have rd_idem : ∀ rd : RepoDiffS, rdPrune (rdPrune rd) = rdPrune rd := by
    intro rd
    induction rd with
    | nil => rfl
    | cons kv rest ih =>
        by_cases h : (ddPrune kv.2).isEmpty
        · simpa [rdPrune, h] using ih
        · have h2 : (ddPrune (ddPrune kv.2)).isEmpty = false := by
            rw [dd_idem kv.2]
            simpa using h
          simp [rdPrune, h, h2, dd_idem] at ih ⊢
          exact ih
  have rd_deltas : ∀ rd : RepoDiffS, rdDeltas (rdPrune rd) = rdDeltas rd := by
    intro rd
    induction rd with
    | nil => rfl
    | cons kv rest ih =>
        by_cases h : (ddPrune kv.2).isEmpty
        · have h2 : ddDeltas kv.2 = [] := by
            rw [← dd_deltas kv.2, List.isEmpty_iff.mp h]
            rfl
          simp [rdPrune, rdDeltas, h, h2] at ih ⊢
          simpa [rdPrune, rdDeltas] using ih
        · simp [rdPrune, rdDeltas, h] at ih ⊢
          rw [dd_deltas kv.2] at *
          simpa [rdPrune, rdDeltas] using ih
  have rd_ne : ∀ rd : RepoDiffS, rdNoEmpty (rdPrune rd) := by
    intro rd kv hkv
    have h1 := List.of_mem_filter hkv
    have h2 := List.mem_of_mem_filter hkv
    obtain ⟨kv0, _, hkv0⟩ := List.mem_map.mp h2
    constructor
    · simpa [List.isEmpty_iff] using h1
    · rw [← hkv0]
      exact dd_ne kv0.2
  refine ⟨dd_idem, rd_idem, dd_deltas, rd_deltas, dd_ne, rd_ne, ?_, ?_⟩
  · intro cc wc
    exact dd_ne _
  · intro l
    exact rd_ne _

/-! ## Conflict batching in `write_index` (C3) -/

/-- Folding a conflict-collecting loop from an arbitrary message prefix:
the loop only ever appends messages, and the index it produces depends
only on the starting index. -/
theorem foldl_msgs_accum {β : Type} (s : List String × GitIndex → β → List String × GitIndex)
    (hs : ∀ m i x, s (m, i) x = (m ++ (s ([], i) x).1, (s ([], i) x).2)) :
    ∀ (l : List β) (m : List String) (i : GitIndex),
      l.foldl s (m, i) = (m ++ (l.foldl s ([], i)).1, (l.foldl s ([], i)).2) := by
  intro l
  induction l with
  | nil => intro m i; simp
  | cons x rest ih =>
      intro m i
      obtain ⟨p1, p2, hp⟩ : ∃ y z, s ([], i) x = (y, z) := ⟨_, _, rfl⟩
      simp only [List.foldl_cons, hs m i x, hp]
      rw [ih (m ++ p1) p2, ih p1 p2]
      simp

/-- The deletes loop only appends messages; its index output depends
only on the incoming index. -/
theorem deleteStep_shape (ds : WriteDataset) :
    ∀ m i x, deleteStep ds (m, i) x =
      (m ++ (deleteStep ds ([], i) x).1, (deleteStep ds ([], i) x).2) := by
  intro m i x
  by_cases h : idxContains i (ds.encode_1pk_to_path (pkOf ds x.2)) <;>
    simp [deleteStep, h]

/-- The inserts loop only appends messages. -/
theorem insertStep_shape (ds : WriteDataset) :
    ∀ m i x, insertStep ds (m, i) x =
      (m ++ (insertStep ds ([], i) x).1, (insertStep ds ([], i) x).2) := by
  intro m i x
  by_cases h : idxContains i (ds.encode_feature x).1 <;> simp [insertStep, h]

/-- The updates loop only appends messages. -/
theorem updateStep_shape (ds : WriteDataset) :
    ∀ m i x, updateStep ds (m, i) x =
      (m ++ (updateStep ds ([], i) x).1, (updateStep ds ([], i) x).2) := by
  intro m i x
  by_cases h1 : idxContains i (ds.encode_1pk_to_path (pkOf ds x.2.1))
  · cases hg : ds.geom_column_name with
    | none =>
        by_cases h2 : featureEq (ds.get_feature (pkOf ds x.2.1)) x.2.1 <;>
          simp [updateStep, h1, hg, h2]
    | some g =>
        by_cases h2 : featureEq (dictPop (ds.get_feature (pkOf ds x.2.1)) g)
            (dictPop x.2.1 g) <;>
          simp [updateStep, h1, hg, h2]
  · simp [updateStep, h1]

/-- C3: with no meta part, `write_index` runs all three delta loops to
completion, collecting one conflict message per conflicting delta
(deletes' conflicts, then inserts', then updates', each loop starting
from the index state the previous loop left); it succeeds iff no
conflict occurred, and otherwise raises exactly one `PatchDoesNotApply`
at the end carrying every collected conflict. -/
theorem writeIndex_batches_conflicts (ds : WriteDataset) (df : DatasetDiffIn)
    (index : GitIndex) (hmeta : df.metaPart = []) :
    (writeIndexLoops ds df index).1 =
        (df.dels.foldl (deleteStep ds) ([], index)).1 ++
        (df.inss.foldl (insertStep ds)
          ([], (df.dels.foldl (deleteStep ds) ([], index)).2)).1 ++
        (df.upds.foldl (updateStep ds)
          ([], (df.inss.foldl (insertStep ds)
            ([], (df.dels.foldl (deleteStep ds) ([], index)).2)).2)).1 ∧
    (write_index ds df index = .ok (writeIndexLoops ds df index).2 ↔
        (writeIndexLoops ds df index).1 = []) ∧
    ((writeIndexLoops ds df index).1 ≠ [] →
        write_index ds df index =
          .error (.patchDoesNotApply (writeIndexLoops ds df index).1,
            (writeIndexLoops ds df index).2)) := by
  obtain ⟨a1, a2, hA⟩ : ∃ y z, df.dels.foldl (deleteStep ds) ([], index) = (y, z) :=
    ⟨_, _, rfl⟩
  obtain ⟨b1, b2, hB⟩ : ∃ y z, df.inss.foldl (insertStep ds) ([], a2) = (y, z) :=
    ⟨_, _, rfl⟩
  obtain ⟨c1, c2, hC⟩ : ∃ y z, df.upds.foldl (updateStep ds) ([], b2) = (y, z) :=
    ⟨_, _, rfl⟩
  have hloops : writeIndexLoops ds df index = (a1 ++ b1 ++ c1, c2) := by
    show df.upds.foldl (updateStep ds)
      (df.inss.foldl (insertStep ds) (df.dels.foldl (deleteStep ds) ([], index))) =
      (a1 ++ b1 ++ c1, c2)
    rw [hA, foldl_msgs_accum _ (insertStep_shape ds) _ a1 a2, hB]
    dsimp only
    rw [foldl_msgs_accum _ (updateStep_shape ds) _ (a1 ++ b1) b2, hC]
  have hwi : write_index ds df index =
      (if (a1 ++ b1 ++ c1) = [] then .ok c2
       else .error (.patchDoesNotApply (a1 ++ b1 ++ c1), c2)) := by
    unfold write_index
    rw [if_neg (by simp [hmeta]), hloops]
    dsimp only
    by_cases hnil : (a1 ++ b1 ++ c1) = []
    · rw [if_neg (not_not_intro hnil), if_pos hnil]
    · rw [if_pos hnil, if_neg hnil]
  refine ⟨?_, ?_, ?_⟩
  · rw [hloops, hA]
    dsimp only
    rw [hB]
    dsimp only
    rw [hC]
  · rw [hloops, hwi]
    dsimp only
    by_cases hnil : (a1 ++ b1 ++ c1) = [] <;> simp [hnil]
  · intro hne
    rw [hloops] at hne ⊢
    dsimp only at hne ⊢
    rw [hwi, if_neg hne]

/-- Witness for `writeIndex_batches_conflicts`: one delete conflict and
one insert conflict are both reported in a single failure at the end. -/
theorem writeIndex_batches_conflicts_witness :
    (DatasetDiffIn.mk [] [("9", [("id", "9")])] [[("id", "5")]] []).metaPart = [] ∧
    write_index
      ⟨"id", fun pk => "T/" ++ pk,
        fun fe => ("T/" ++ (alookup fe "id").getD "", "dat"), none, fun _ => []⟩
      ⟨[], [("9", [("id", "9")])], [[("id", "5")]], []⟩ [("T/5", "old")] =
      .error (.patchDoesNotApply
        ["Trying to delete nonexistent feature: 9",
         "Trying to create feature that already exists: 5"], [("T/5", "old")]) := by
  refine ⟨rfl, ?_⟩
  have h := (writeIndex_batches_conflicts
    ⟨"id", fun pk => "T/" ++ pk,
      fun fe => ("T/" ++ (alookup fe "id").getD "", "dat"), none, fun _ => []⟩
    ⟨[], [("9", [("id", "9")])], [[("id", "5")]], []⟩ [("T/5", "old")] rfl).2.2
    (by simp [writeIndexLoops, deleteStep, insertStep, idxContains, alookup, pkOf])
  rw [h]
  rfl

/-- Witness for `diff_same_pk_delete_insert_pairs`: a deletion and an
insertion of pk 7 (at different paths) are re-paired into one Update. -/
theorem diff_same_pk_delete_insert_pairs_witness :
    (TreePath.record "v1path-7").isMeta = false ∧
    snoDiffDeltas
      ⟨fun _ => "7", fun pk => [("id", pk), ("v", "old")]⟩
      ⟨fun _ => "7", fun pk => [("id", pk), ("v", "new")]⟩
      unfiltered
      [⟨.deleted, .record "v1path-7", .record "v1path-7"⟩,
       ⟨.added, .record "v2path-7", .record "v2path-7"⟩] =
      .ok ⟨[], [], [], [("7", ([("id", "7"), ("v", "old")], [("id", "7"), ("v", "new")]))]⟩ :=
  ⟨rfl, diff_same_pk_delete_insert_pairs _ _ _ _ _ rfl rfl rfl rfl⟩

/-! ## Meta-conflict gating and resolution round-trip (C4, C5) -/

/-- C4: while a dataset has an unresolved meta-item conflict, resolving
any feature conflict of that dataset fails with `InvalidOperation`; once
the dataset's (only) unresolved meta conflict is resolved, resolving the
same feature conflict succeeds. -/
theorem meta_conflicts_gate_feature_resolves (mi : MergedIndex)
    (fk mk : ConflictKey) (vs ws : List Version)
    (hfk : fk.isMetaItem = false) (hmk : mk.isMetaItem = true)
    (hds : mk.dataset = fk.dataset)
    (hfc : (alookup mi.conflicts fk).isSome = true)
    (hmc : (alookup mi.conflicts mk).isSome = true)
    (hmu : (alookup mi.resolves mk).isNone = true)
    (honly : ∀ kc ∈ mi.conflicts, kc.1.dataset = fk.dataset → kc.1.isMetaItem = true →
      (alookup mi.resolves kc.1).isNone = true → kc.1 = mk) :
    resolveConflict mi fk vs = .error .invalidOperation ∧
    resolveConflict mi mk ws = .ok { mi with resolves := dictSet mi.resolves mk ws } ∧
    resolveConflict { mi with resolves := dictSet mi.resolves mk ws } fk vs =
      .ok { mi with resolves := dictSet (dictSet mi.resolves mk ws) fk vs } := by
  obtain ⟨cf, hcf⟩ := Option.isSome_iff_exists.mp hfc
  obtain ⟨cm, hcm⟩ := Option.isSome_iff_exists.mp hmc
  have hgate : hasUnresolvedMetaConflict mi fk.dataset = true := by
    unfold hasUnresolvedMetaConflict
    rw [List.any_eq_true]
    exact ⟨(mk, cm), alookup_some_mem hcm, by simp [hds, hmk, hmu]⟩
  refine ⟨?_, ?_, ?_⟩
  · unfold resolveConflict
    rw [if_neg (by simp [hcf]), if_pos ⟨by simp [hfk], hgate⟩]
  · unfold resolveConflict
    rw [if_neg (by simp [hcm]), if_neg (by simp [hmk])]
  · have hgone : hasUnresolvedMetaConflict
        { mi with resolves := dictSet mi.resolves mk ws } fk.dataset = false := by
      unfold hasUnresolvedMetaConflict
      rw [List.any_eq_false]
      intro kc hkc
      by_cases hkm : kc.1 = mk
      · simp [hkm, alookup_dictSet_self]
      · intro h'
        have h'' : kc.1.dataset = fk.dataset ∧ kc.1.isMetaItem = true ∧
            (alookup (dictSet mi.resolves mk ws) kc.1).isNone = true := by
          simpa [Bool.and_eq_true, and_assoc] using h'
        rw [alookup_dictSet_ne hkm] at h''
        exact hkm (honly kc hkc h''.1 h''.2.1 h''.2.2)
    unfold resolveConflict
    rw [if_neg (by simp [hcf]), if_neg (by simp [hgone])]

/-- Witness for `meta_conflicts_gate_feature_resolves`: one schema
conflict gates one feature conflict; resolving the schema conflict first
unblocks the feature conflict. -/
theorem meta_conflicts_gate_feature_resolves_witness :
    resolveConflict
      ⟨[], [(⟨"ds", true, "schema.json"⟩, ⟨none, none, none⟩),
            (⟨"ds", false, "5"⟩, ⟨none, none, none⟩)], []⟩
      ⟨"ds", false, "5"⟩ [⟨"5", [("x", "9")]⟩] = .error .invalidOperation ∧
    resolveConflict
      ⟨[], [(⟨"ds", true, "schema.json"⟩, ⟨none, none, none⟩),
            (⟨"ds", false, "5"⟩, ⟨none, none, none⟩)], []⟩
      ⟨"ds", true, "schema.json"⟩ [] =
      .ok ⟨[], [(⟨"ds", true, "schema.json"⟩, ⟨none, none, none⟩),
            (⟨"ds", false, "5"⟩, ⟨none, none, none⟩)],
        [(⟨"ds", true, "schema.json"⟩, [])]⟩ ∧
    resolveConflict
      ⟨[], [(⟨"ds", true, "schema.json"⟩, ⟨none, none, none⟩),
            (⟨"ds", false, "5"⟩, ⟨none, none, none⟩)],
        [(⟨"ds", true, "schema.json"⟩, [])]⟩
      ⟨"ds", false, "5"⟩ [⟨"5", [("x", "9")]⟩] =
      .ok ⟨[], [(⟨"ds", true, "schema.json"⟩, ⟨none, none, none⟩),
            (⟨"ds", false, "5"⟩, ⟨none, none, none⟩)],
        [(⟨"ds", true, "schema.json"⟩, []),
         (⟨"ds", false, "5"⟩, [⟨"5", [("x", "9")]⟩])]⟩ := by
  have h := meta_conflicts_gate_feature_resolves
    ⟨[], [(⟨"ds", true, "schema.json"⟩, ⟨none, none, none⟩),
          (⟨"ds", false, "5"⟩, ⟨none, none, none⟩)], []⟩
    ⟨"ds", false, "5"⟩ ⟨"ds", true, "schema.json"⟩
    [⟨"5", [("x", "9")]⟩] [] rfl rfl rfl rfl rfl rfl (by decide)
  exact ⟨h.1, h.2.1, h.2.2⟩

/-- C5: for a conflict key `k`, `resolve(k, [v])` followed by
finalization places exactly `v` at its identity in the output tree;
`resolve(k, [])` followed by finalization removes the identity entirely;
`resolve(k, [v1, v2])` followed by finalization leaves two distinct
identities both present. -/
theorem resolution_round_trip (entries : List (String × Feature))
    (k : ConflictKey) (c : Conflict) (v v1 v2 : Version)
    (hv : alookup entries v.pk = none)
    (h12 : v1.pk ≠ v2.pk)
    (hv1 : alookup entries v1.pk = none)
    (hv2 : alookup entries v2.pk = none) :
    (resolveConflict ⟨entries, [(k, c)], []⟩ k [v] =
        .ok ⟨entries, [(k, c)], [(k, [v])]⟩ ∧
      finalizeMerge ⟨entries, [(k, c)], [(k, [v])]⟩ =
        .ok (entries ++ [(v.pk, v.value)]) ∧
      alookup (entries ++ [(v.pk, v.value)]) v.pk = some v.value) ∧
    (resolveConflict ⟨entries, [(k, c)], []⟩ k [] =
        .ok ⟨entries, [(k, c)], [(k, [])]⟩ ∧
      finalizeMerge ⟨entries, [(k, c)], [(k, [])]⟩ = .ok entries ∧
      alookup entries v.pk = none) ∧
    (resolveConflict ⟨entries, [(k, c)], []⟩ k [v1, v2] =
        .ok ⟨entries, [(k, c)], [(k, [v1, v2])]⟩ ∧
      finalizeMerge ⟨entries, [(k, c)], [(k, [v1, v2])]⟩ =
        .ok (entries ++ [(v1.pk, v1.value), (v2.pk, v2.value)]) ∧
      alookup (entries ++ [(v1.pk, v1.value), (v2.pk, v2.value)]) v1.pk = some v1.value ∧
      alookup (entries ++ [(v1.pk, v1.value), (v2.pk, v2.value)]) v2.pk = some v2.value) := by
  have hres : ∀ versions, resolveConflict ⟨entries, [(k, c)], []⟩ k versions =
      .ok ⟨entries, [(k, c)], [(k, versions)]⟩ := by
    intro versions
    unfold resolveConflict
    rw [if_neg (by simp [alookup])]
    rw [if_neg ?gate]
    · simp [dictSet]
    case gate =>
      rintro ⟨hnm, hun⟩
      unfold hasUnresolvedMetaConflict at hun
      rw [List.any_eq_true] at hun
      obtain ⟨kc, hkc, hpred⟩ := hun
      have hkck : kc = (k, c) := by simpa using hkc
      subst hkck
      have hm : k.isMetaItem = true := by
        simpa [alookup] using hpred
      exact hnm hm
  have hfin : ∀ versions, finalizeMerge ⟨entries, [(k, c)], [(k, versions)]⟩ =
      .ok (entries ++ versions.map (fun w => (w.pk, w.value))) := by
    intro versions
    unfold finalizeMerge
    simp [alookup]
  refine ⟨⟨hres [v], by simpa using hfin [v], ?_⟩,
          ⟨hres [], by simpa using hfin [], hv⟩,
          ⟨hres [v1, v2], by simpa using hfin [v1, v2], ?_, ?_⟩⟩
  · rw [alookup_append, hv]
    simp [alookup]
  · rw [alookup_append, hv1]
    simp [alookup]
  · rw [alookup_append, hv2]
    simp [alookup, h12]

/-- Witness for `resolution_round_trip`: a concrete add/add conflict
resolved three ways. -/
theorem resolution_round_trip_witness :
    alookup [("1", [("a", "b")])] "7" = none ∧
    ("7" : String) ≠ "8" ∧
    (resolveConflict ⟨[("1", [("a", "b")])], [(⟨"ds", false, "7"⟩, ⟨none, none, none⟩)], []⟩
        ⟨"ds", false, "7"⟩ [⟨"7", [("x", "9")]⟩] =
      .ok ⟨[("1", [("a", "b")])], [(⟨"ds", false, "7"⟩, ⟨none, none, none⟩)],
        [(⟨"ds", false, "7"⟩, [⟨"7", [("x", "9")]⟩])]⟩) ∧
    finalizeMerge ⟨[("1", [("a", "b")])], [(⟨"ds", false, "7"⟩, ⟨none, none, none⟩)],
        [(⟨"ds", false, "7"⟩, [⟨"7", [("x", "9")]⟩])]⟩ =
      .ok [("1", [("a", "b")]), ("7", [("x", "9")])] := by
  have h := resolution_round_trip [("1", [("a", "b")])]
    ⟨"ds", false, "7"⟩ ⟨none, none, none⟩
    ⟨"7", [("x", "9")]⟩ ⟨"7", [("x", "9")]⟩ ⟨"8", [("y", "1")]⟩
    rfl (by decide) rfl rfl
  exact ⟨rfl, by decide, h.1.1, by simpa using h.1.2.1⟩

/-! ## The diff inverse law (C2)

`datasetDiff` on well-formed snapshots is first characterised in closed
form: deletes are old-only features, inserts new-only features, updates
the common keys whose value changed, each restricted by the filter (the
rename-detection pass never fires here because a deletion bucket's key
is a pk absent from the new snapshot while an insertion bucket's key is
a pk present in it). -/

/-- `processDeltas` distributes over list append. -/
theorem processDeltas_append (old new : SnapView) (f : String → Bool)
    (l1 l2 : List TreeDelta) (st : DiffCands) :
    processDeltas old new f st (l1 ++ l2) =
      match processDeltas old new f st l1 with
      | .ok st' => processDeltas old new f st' l2
      | .error e => .error e := by
  induction l1 generalizing st with
  | nil => simp [processDeltas]
  | cons d rest ih =>
      simp only [List.cons_append, processDeltas]
      cases processDelta old new f st d with
      | error e => rfl
      | ok st' => exact ih st'

/-- Flattening a list of singleton lists. -/
theorem flatten_map_singleton {α β : Type} (l : List α) (g : α → β) :
    (l.map (fun x => [g x])).flatten = l.map g := by
  induction l with
  | nil => rfl
  | cons x rest ih => simp [ih]

/-- Running the delta loop over the deleted/modified deltas generated
from the old snapshot's features: deletions are staged in singleton
buckets keyed by pk, updates are recorded keyed by pk, insertions are
untouched. -/
theorem processDeltas_delmod_phase (a b : Snapshot) (f : String → Bool)
    (l : List (String × Feature)) (st : DiffCands)
    (hsub : ∀ kv ∈ l, alookup a.features kv.1 = some kv.2)
    (hnd : (l.map Prod.fst).Nodup)
    (hdel : ∀ kv ∈ l, alookup st.del kv.1 = none)
    (hupd : ∀ kv ∈ l, alookup st.upd kv.1 = none) :
    processDeltas a.view b.view f st
      (l.filterMap (fun kv =>
        match alookup b.features kv.1 with
        | none => some ⟨.deleted, .record kv.1, .record kv.1⟩
        | some fb => if kv.2 = fb then none
            else some ⟨.modified, .record kv.1, .record kv.1⟩)) =
      .ok { st with
        del := st.del ++
          (l.filter (fun kv => (alookup b.features kv.1).isNone && f kv.1)).map
            (fun kv => (kv.1, [(kv.1, kv.2)]))
        upd := st.upd ++
          (l.filter (fun kv =>
            match alookup b.features kv.1 with
            | some fb => decide (kv.2 ≠ fb) && f kv.1
            | none => false)).map
            (fun kv => (kv.1, (kv.2, (alookup b.features kv.1).getD []))) } := by
  induction l generalizing st with
  | nil => simp [processDeltas]
  | cons kv rest ih =>
      obtain ⟨k0, v0⟩ := kv
      simp only [List.map_cons, List.nodup_cons] at hnd
      have hk0 : alookup a.features k0 = some v0 := hsub (k0, v0) (List.mem_cons_self _ _)
      have hfeat : a.view.feat k0 = v0 := by
        simp [Snapshot.view, hk0]
      have hrest_sub : ∀ kv ∈ rest, alookup a.features kv.1 = some kv.2 :=
        fun kv h => hsub kv (List.mem_cons_of_mem _ h)
      have hne_rest : ∀ kv ∈ rest, ¬ k0 = kv.1 := by
        intro kv h he
        exact hnd.1 (he ▸ List.mem_map_of_mem Prod.fst h)
      cases hb : alookup b.features k0 with
      | none =>
          by_cases hf : f k0 = true
          · have hstep : processDelta a.view b.view f st
                ⟨.deleted, .record k0, .record k0⟩ =
                .ok { st with del := st.del ++ [(k0, [(k0, v0)])] } := by
              have hfresh := hdel (k0, v0) (List.mem_cons_self _ _)
              simp only [processDelta, TreePath.isMeta, Bool.false_eq_true, if_false,
                Snapshot.view] at *
              simp [hf, hfeat, bucketAppend_fresh hfresh, Snapshot.view, hk0]
            simp only [List.filterMap_cons, hb, processDeltas, hstep]
            rw [ih _ hrest_sub hnd.2 ?hdel ?hupd]
            · simp [hb, hf, List.filter_cons, List.append_assoc]
            case hdel =>
              intro kv h
              rw [alookup_append, hdel kv (List.mem_cons_of_mem _ h)]
              simp [alookup, hne_rest kv h]
            case hupd =>
              intro kv h
              exact hupd kv (List.mem_cons_of_mem _ h)
          · have hstep : processDelta a.view b.view f st
                ⟨.deleted, .record k0, .record k0⟩ = .ok st := by
              simp [processDelta, TreePath.isMeta, Snapshot.view, hf]
            simp only [List.filterMap_cons, hb, processDeltas, hstep]
            rw [ih _ hrest_sub hnd.2
              (fun kv h => hdel kv (List.mem_cons_of_mem _ h))
              (fun kv h => hupd kv (List.mem_cons_of_mem _ h))]
            simp [hb, hf, List.filter_cons]
      | some fb =>
          by_cases heq : v0 = fb
          · simp only [List.filterMap_cons, hb, if_pos heq]
            rw [ih _ hrest_sub hnd.2
              (fun kv h => hdel kv (List.mem_cons_of_mem _ h))
              (fun kv h => hupd kv (List.mem_cons_of_mem _ h))]
            simp [hb, heq, List.filter_cons]
          · by_cases hf : f k0 = true
            · have hstep : processDelta a.view b.view f st
                  ⟨.modified, .record k0, .record k0⟩ =
                  .ok { st with upd := st.upd ++ [(k0, (v0, fb))] } := by
                have hfresh := hupd (k0, v0) (List.mem_cons_self _ _)
                simp [processDelta, TreePath.isMeta, Snapshot.view, hf, hfeat,
                  dictSet_fresh hfresh, hk0, hb]
              simp only [List.filterMap_cons, hb, if_neg heq, processDeltas, hstep]
              rw [ih _ hrest_sub hnd.2 ?hdel2 ?hupd2]
              · simp [hb, hf, heq, List.filter_cons, List.append_assoc]
              case hdel2 =>
                intro kv h
                exact hdel kv (List.mem_cons_of_mem _ h)
              case hupd2 =>
                intro kv h
                rw [alookup_append, hupd kv (List.mem_cons_of_mem _ h)]
                simp [alookup, hne_rest kv h]
            · have hstep : processDelta a.view b.view f st
                  ⟨.modified, .record k0, .record k0⟩ = .ok st := by
                simp [processDelta, TreePath.isMeta, Snapshot.view, hf]
              simp only [List.filterMap_cons, hb, if_neg heq, processDeltas, hstep]
              rw [ih _ hrest_sub hnd.2
                (fun kv h => hdel kv (List.mem_cons_of_mem _ h))
                (fun kv h => hupd kv (List.mem_cons_of_mem _ h))]
              simp [hb, hf, heq, List.filter_cons]

/-- Running the delta loop over the added deltas generated from the new
snapshot's features: insertions are staged in singleton buckets keyed by
pk; deletions and updates are untouched. -/
theorem processDeltas_add_phase (a b : Snapshot) (f : String → Bool)
    (l : List (String × Feature)) (st : DiffCands)
    (hsub : ∀ kv ∈ l, alookup b.features kv.1 = some kv.2)
    (hnd : (l.map Prod.fst).Nodup)
    (hins : ∀ kv ∈ l, alookup st.ins kv.1 = none) :
    processDeltas a.view b.view f st
      (l.filterMap (fun kv =>
        if (alookup a.features kv.1).isSome then none
        else some ⟨.added, .record kv.1, .record kv.1⟩)) =
      .ok { st with
        ins := st.ins ++
          (l.filter (fun kv => (alookup a.features kv.1).isNone && f kv.1)).map
            (fun kv => (kv.1, [kv.2])) } := by
  induction l generalizing st with
  | nil => simp [processDeltas]
  | cons kv rest ih =>
      obtain ⟨k0, v0⟩ := kv
      simp only [List.map_cons, List.nodup_cons] at hnd
      have hk0 : alookup b.features k0 = some v0 := hsub (k0, v0) (List.mem_cons_self _ _)
      have hfeat : b.view.feat k0 = v0 := by
        simp [Snapshot.view, hk0]
      have hrest_sub : ∀ kv ∈ rest, alookup b.features kv.1 = some kv.2 :=
        fun kv h => hsub kv (List.mem_cons_of_mem _ h)
      have hne_rest : ∀ kv ∈ rest, ¬ k0 = kv.1 := by
        intro kv h he
        exact hnd.1 (he ▸ List.mem_map_of_mem Prod.fst h)
      cases hA : alookup a.features k0 with
      | some fa =>
          simp only [List.filterMap_cons, hA, Option.isSome_some, if_pos]
          rw [ih _ hrest_sub hnd.2
            (fun kv h => hins kv (List.mem_cons_of_mem _ h))]
          simp [hA, List.filter_cons]
      | none =>
          by_cases hf : f k0 = true
          · have hstep : processDelta a.view b.view f st
                ⟨.added, .record k0, .record k0⟩ =
                .ok { st with ins := st.ins ++ [(k0, [v0])] } := by
              have hfresh := hins (k0, v0) (List.mem_cons_self _ _)
              simp [processDelta, TreePath.isMeta, Snapshot.view, hf, hfeat,
                bucketAppend_fresh hfresh, hk0]
            simp only [List.filterMap_cons, hA, Option.isSome_none,
              Bool.false_eq_true, if_false, processDeltas, hstep]
            rw [ih _ hrest_sub hnd.2 ?hins2]
            · simp [hA, hf, List.filter_cons, List.append_assoc]
            case hins2 =>
              intro kv h
              rw [alookup_append, hins kv (List.mem_cons_of_mem _ h)]
              simp [alookup, hne_rest kv h]
          · have hstep : processDelta a.view b.view f st
                ⟨.added, .record k0, .record k0⟩ = .ok st := by
              simp [processDelta, TreePath.isMeta, Snapshot.view, hf]
            simp only [List.filterMap_cons, hA, Option.isSome_none,
              Bool.false_eq_true, if_false, processDeltas, hstep]
            rw [ih _ hrest_sub hnd.2
              (fun kv h => hins kv (List.mem_cons_of_mem _ h))]
            simp [hA, hf, List.filter_cons]

/-- When no staged deletion bucket's key is also an insertion bucket
key, the rename-detection pass is the identity. -/
theorem foldl_renameStep_noop (st : DiffCands) (ks : List String)
    (h : ∀ x ∈ ks, alookup st.ins x = none) : ks.foldl renameStep st = st := by
  induction ks with
  | nil => rfl
  | cons x rest ih =>
      have hx : renameStep st x = st := by
        unfold renameStep
        rw [h x (List.mem_cons_self _ _)]
        cases alookup st.del x <;> rfl
      rw [List.foldl_cons, hx, ih (fun y hy => h y (List.mem_cons_of_mem _ hy))]

/-- `DatasetStructure.diff` between two well-formed snapshots of one
dataset, in closed form: inserts are the new-only features, deletes the
old-only features, updates the common keys whose value changed, each
restricted by the pk filter; no error is raised and the rename pass
never fires. -/
theorem datasetDiff_closed_form (a b : Snapshot) (f : String → Bool)
    (ha : a.wf) (hb : b.wf) :
    datasetDiff a b f = .ok ⟨[], insClosed a b f, delClosed a b f, updClosed a b f⟩ := by
  have hsubA : ∀ kv ∈ a.features, alookup a.features kv.1 = some kv.2 :=
    fun kv h => mem_alookup ha h
  have hsubB : ∀ kv ∈ b.features, alookup b.features kv.1 = some kv.2 :=
    fun kv h => mem_alookup hb h
  have hA : processDeltas a.view b.view f ⟨[], [], []⟩
      (a.features.filterMap (fun kv =>
        match alookup b.features kv.1 with
        | none => some ⟨.deleted, .record kv.1, .record kv.1⟩
        | some fb => if kv.2 = fb then none
            else some ⟨.modified, .record kv.1, .record kv.1⟩)) =
      .ok ⟨[],
        (a.features.filter (fun kv =>
          match alookup b.features kv.1 with
          | some fb => decide (kv.2 ≠ fb) && f kv.1
          | none => false)).map
          (fun kv => (kv.1, (kv.2, (alookup b.features kv.1).getD []))),
        (a.features.filter (fun kv => (alookup b.features kv.1).isNone && f kv.1)).map
          (fun kv => (kv.1, [(kv.1, kv.2)]))⟩ := by
    have h := processDeltas_delmod_phase a b f a.features ⟨[], [], []⟩ hsubA ha
      (fun kv _ => rfl) (fun kv _ => rfl)
    simpa using h
  have hB : processDeltas a.view b.view f
      ⟨[],
        (a.features.filter (fun kv =>
          match alookup b.features kv.1 with
          | some fb => decide (kv.2 ≠ fb) && f kv.1
          | none => false)).map
          (fun kv => (kv.1, (kv.2, (alookup b.features kv.1).getD []))),
        (a.features.filter (fun kv => (alookup b.features kv.1).isNone && f kv.1)).map
          (fun kv => (kv.1, [(kv.1, kv.2)]))⟩
      (b.features.filterMap (fun kv =>
        if (alookup a.features kv.1).isSome then none
        else some ⟨.added, .record kv.1, .record kv.1⟩)) =
      .ok ⟨(b.features.filter (fun kv => (alookup a.features kv.1).isNone && f kv.1)).map
          (fun kv => (kv.1, [kv.2])),
        (a.features.filter (fun kv =>
          match alookup b.features kv.1 with
          | some fb => decide (kv.2 ≠ fb) && f kv.1
          | none => false)).map
          (fun kv => (kv.1, (kv.2, (alookup b.features kv.1).getD []))),
        (a.features.filter (fun kv => (alookup b.features kv.1).isNone && f kv.1)).map
          (fun kv => (kv.1, [(kv.1, kv.2)]))⟩ := by
    have h := processDeltas_add_phase a b f b.features
      ⟨[],
        (a.features.filter (fun kv =>
          match alookup b.features kv.1 with
          | some fb => decide (kv.2 ≠ fb) && f kv.1
          | none => false)).map
          (fun kv => (kv.1, (kv.2, (alookup b.features kv.1).getD []))),
        (a.features.filter (fun kv => (alookup b.features kv.1).isNone && f kv.1)).map
          (fun kv => (kv.1, [(kv.1, kv.2)]))⟩ hsubB hb (fun kv _ => rfl)
    simpa using h
  have hnoop : detectRenames
      ⟨(b.features.filter (fun kv => (alookup a.features kv.1).isNone && f kv.1)).map
          (fun kv => (kv.1, [kv.2])),
        (a.features.filter (fun kv =>
          match alookup b.features kv.1 with
          | some fb => decide (kv.2 ≠ fb) && f kv.1
          | none => false)).map
          (fun kv => (kv.1, (kv.2, (alookup b.features kv.1).getD []))),
        (a.features.filter (fun kv => (alookup b.features kv.1).isNone && f kv.1)).map
          (fun kv => (kv.1, [(kv.1, kv.2)]))⟩ =
      ⟨(b.features.filter (fun kv => (alookup a.features kv.1).isNone && f kv.1)).map
          (fun kv => (kv.1, [kv.2])),
        (a.features.filter (fun kv =>
          match alookup b.features kv.1 with
          | some fb => decide (kv.2 ≠ fb) && f kv.1
          | none => false)).map
          (fun kv => (kv.1, (kv.2, (alookup b.features kv.1).getD []))),
        (a.features.filter (fun kv => (alookup b.features kv.1).isNone && f kv.1)).map
          (fun kv => (kv.1, [(kv.1, kv.2)]))⟩ := by
    unfold detectRenames
    apply foldl_renameStep_noop
    intro x hx
    rw [alookup_eq_none]
    intro hxins
    obtain ⟨p, hp, hpx⟩ := List.mem_map.mp hx
    obtain ⟨kv, hkvf, hkve⟩ := List.mem_map.mp hp
    obtain ⟨q, hq, hqx⟩ := List.mem_map.mp hxins
    obtain ⟨kw, hkwf, hkwe⟩ := List.mem_map.mp hq
    have hkvx : kv.1 = x := by rw [← hpx, ← hkve]
    have hkwx : kw.1 = x := by rw [← hqx, ← hkwe]
    have hcondv := List.of_mem_filter hkvf
    have hsome : alookup b.features kw.1 = some kw.2 :=
      mem_alookup hb (List.mem_of_mem_filter hkwf)
    rw [hkwx] at hsome
    rw [Bool.and_eq_true] at hcondv
    have hnone : (alookup b.features kv.1).isNone = true := hcondv.1
    rw [hkvx, hsome] at hnone
    simp at hnone
  unfold datasetDiff snoDiffDeltas treeDeltas
  rw [processDeltas_append, hA]
  dsimp only
  rw [hB]
  dsimp only
  rw [hnoop]
  have hins_eq :
      (((b.features.filter (fun kv => (alookup a.features kv.1).isNone && f kv.1)).map
        (fun kv => (kv.1, [kv.2]))).map Prod.snd).flatten = insClosed a b f := by
    rw [List.map_map]
    exact flatten_map_singleton _ _
  have hdel_flat :
      (((a.features.filter (fun kv => (alookup b.features kv.1).isNone && f kv.1)).map
        (fun kv => (kv.1, [(kv.1, kv.2)]))).map Prod.snd).flatten = delClosed a b f := by
    rw [List.map_map]
    have h := flatten_map_singleton
      (a.features.filter (fun kv => (alookup b.features kv.1).isNone && f kv.1))
      (fun kv => (kv.1, kv.2))
    simpa [delClosed] using h
  have hdel_eq : listToDict
      (((a.features.filter (fun kv => (alookup b.features kv.1).isNone && f kv.1)).map
        (fun kv => (kv.1, [(kv.1, kv.2)]))).map Prod.snd).flatten = delClosed a b f := by
    rw [hdel_flat]
    apply listToDict_nodup
    exact List.Nodup.sublist (List.Sublist.map Prod.fst (List.filter_sublist _)) ha
  rw [hins_eq, hdel_eq]
  rfl

/-- Membership in the closed-form update list, for a well-formed old
snapshot. -/
theorem mem_updClosed {a b : Snapshot} {f : String → Bool} (ha : a.wf)
    {k : String} {x y : Feature} :
    (k, (x, y)) ∈ updClosed a b f ↔
      (alookup a.features k = some x ∧ alookup b.features k = some y ∧
        x ≠ y ∧ f k = true) := by
  unfold updClosed
  rw [List.mem_map]
  constructor
  · rintro ⟨kv, hkv, heq⟩
    obtain ⟨k0, v0⟩ := kv
    simp only [Prod.mk.injEq] at heq
    obtain ⟨hk, hx, hy⟩ := heq
    subst hk
    subst hx
    have hmem := List.mem_of_mem_filter hkv
    have hcond := List.of_mem_filter hkv
    cases hbk : alookup b.features k0 with
    | none =>
        rw [hbk] at hcond
        simp at hcond
    | some fb =>
        rw [hbk] at hcond hy
        simp only [Option.getD_some] at hy
        subst hy
        simp only [Bool.and_eq_true, decide_eq_true_eq] at hcond
        exact ⟨mem_alookup ha hmem, rfl, hcond.1, hcond.2⟩
  · rintro ⟨hax, hby, hxy, hf⟩
    refine ⟨(k, x), List.mem_filter.mpr ⟨alookup_some_mem hax, ?_⟩, ?_⟩
    · rw [hby]
      simp [hxy, hf]
    · simp [hby]

/-- C2: for any two well-formed snapshots A, B and any pk filter, the
forward diff A→B and the backward diff B→A succeed and mirror each
other: an Update at identity k with endpoints (x, y) appears in one iff
the Update at k with endpoints (y, x) appears in the other, and the
inserts of each are exactly the deleted features of the other (same
identities, same order, Insert/Delete swapped). -/
theorem diff_inverse_law (a b : Snapshot) (f : String → Bool)
    (ha : a.wf) (hb : b.wf) :
    ∃ d1 d2, datasetDiff a b f = .ok d1 ∧ datasetDiff b a f = .ok d2 ∧
      (∀ k x y, (k, (x, y)) ∈ d1.updates ↔ (k, (y, x)) ∈ d2.updates) ∧
      d2.inserts = d1.deletes.map Prod.snd ∧
      d1.inserts = d2.deletes.map Prod.snd := by
  refine ⟨_, _, datasetDiff_closed_form a b f ha hb,
    datasetDiff_closed_form b a f hb ha, ?_, ?_, ?_⟩
  · intro k x y
    show (k, (x, y)) ∈ updClosed a b f ↔ (k, (y, x)) ∈ updClosed b a f
    rw [mem_updClosed ha, mem_updClosed hb]
    constructor
    · rintro ⟨h1, h2, h3, h4⟩
      exact ⟨h2, h1, Ne.symm h3, h4⟩
    · rintro ⟨h1, h2, h3, h4⟩
      exact ⟨h2, h1, Ne.symm h3, h4⟩
  · rfl
  · rfl

/-- Witness for `diff_inverse_law`: two concrete snapshots sharing key 2
(modified), with key 1 deleted and key 3 inserted. -/
theorem diff_inverse_law_witness :
    Snapshot.wf ⟨[("1", [("v", "a")]), ("2", [("v", "b")])]⟩ ∧
    Snapshot.wf ⟨[("2", [("v", "B")]), ("3", [("v", "c")])]⟩ ∧
    (∃ d1 d2,
      datasetDiff ⟨[("1", [("v", "a")]), ("2", [("v", "b")])]⟩
        ⟨[("2", [("v", "B")]), ("3", [("v", "c")])]⟩ unfiltered = .ok d1 ∧
      datasetDiff ⟨[("2", [("v", "B")]), ("3", [("v", "c")])]⟩
        ⟨[("1", [("v", "a")]), ("2", [("v", "b")])]⟩ unfiltered = .ok d2 ∧
      (∀ k x y, (k, (x, y)) ∈ d1.updates ↔ (k, (y, x)) ∈ d2.updates) ∧
      d2.inserts = d1.deletes.map Prod.snd ∧
      d1.inserts = d2.deletes.map Prod.snd) :=
  ⟨by unfold Snapshot.wf; decide, by unfold Snapshot.wf; decide,
    diff_inverse_law ⟨[("1", [("v", "a")]), ("2", [("v", "b")])]⟩
      ⟨[("2", [("v", "B")]), ("3", [("v", "c")])]⟩ unfiltered
      (by unfold Snapshot.wf; decide) (by unfold Snapshot.wf; decide)⟩

end Kart
